import Mathlib

/-!
Verification of the completion-query extraction core of
`src/crates/completions/src/parser.rs` (markdown-oxide).

The source builds four regular expressions (wiki/markdown × closed/unclosed)
from a query-specific payload fragment, scans a line of text with
`captures_iter(..).find(..)` under a cursor-containment predicate, and packages
the first applicable match into a typed query plus span/display metadata.

The embedding below models the Rust `regex` crate fragment actually used by
the source: a backtracking matcher with leftmost-first semantics, lazy (`*?`,
`??`) and greedy (`?`) preference, named capture groups, and an end-of-input
anchor.  Rust's `regex` crate documents leftmost-first (Perl-like) match
semantics, which is exactly what a preference-ordered backtracking matcher
computes.  Strings are modelled as `List Char` and offsets as character
indices (all behaviour relevant here is byte/character agnostic on the ASCII
inputs of the source's own tests, and the general theorems do not depend on
the distinction).  Rust panics (`expect`, out-of-bounds slicing) are modelled
by an `Except PanicKind` result.
-/

namespace MarkdownOxide

/-- Capture bindings of a match attempt: (group id, start, end), most recent
first.  A binding is present exactly when the group participated in the match
(Rust `Captures::name` returning `Some`), and an empty participation is the
binding `(g, i, i)` (Rust `Some("")`), distinct from absence. -/
abbrev Caps := List (Nat × Nat × Nat)

/-- Regex abstract syntax, covering exactly the constructs appearing in the
four patterns of `MDLinkParser::parse`: literals/character classes, sequencing,
alternation, greedy `?` (`opt`), lazy `??` (`optL`), lazy `*?` (`starL`),
named groups, and the end-of-haystack anchor `$` (`eos`). -/
inductive Reg where
  | eps
  | cls (p : Char → Bool)
  | seq (a b : Reg)
  | alt (a b : Reg)
  | opt (a : Reg)
  | optL (a : Reg)
  | starL (a : Reg)
  | grp (n : Nat) (a : Reg)
  | eos

abbrev MatchResult := Option (Nat × Caps)
abbrev Cont := Nat → Caps → MatchResult
abbrev Matcher := Reg → List Char → Nat → Caps → Cont → MatchResult

/-- One unfolding step of the backtracking matcher, in continuation-passing
style.  Preference order realises leftmost-first semantics: `alt` prefers its
left branch, `opt` prefers to consume, `optL` and `starL` prefer to skip, and
a star iteration must consume at least one character (empty iterations cannot
repeat, matching the `regex` crate). -/
def mstep (rec : Matcher) : Matcher := fun r s i caps k =>
  match r with
  | .eps => k i caps
  | .cls p =>
    match s[i]? with
    | some c => if p c then k (i+1) caps else none
    | none => none
  | .seq a b => rec a s i caps (fun j c => rec b s j c k)
  | .alt a b => (rec a s i caps k).orElse (fun _ => rec b s i caps k)
  | .opt a => (rec a s i caps k).orElse (fun _ => k i caps)
  | .optL a => (k i caps).orElse (fun _ => rec a s i caps k)
  | .starL a =>
    (k i caps).orElse (fun _ =>
      rec a s i caps (fun j c => if i < j then rec (.starL a) s j c k else none))
  | .grp n a => rec a s i caps (fun j c => k j ((n, i, j) :: c))
  | .eos => if i = s.length then k i caps else none

/-- Fuel-indexed matcher.  Fuel only bounds recursion depth; `fuelFor` below is
far larger than the depth any of the four patterns can reach on its input, so
the concrete evaluations agree with the unbounded backtracking semantics. -/
def mtch (fuel : Nat) : Matcher :=
  @Nat.rec (fun _ => Matcher) (fun _ _ _ _ _ => none) (fun _ ih => mstep ih) fuel

def fuelFor (s : List Char) : Nat := 16 * s.length + 128

/-- Anchored match attempt of `r` at position `i` of `s`: on success, the end
position of the overall match and the capture bindings. -/
def runAt (s : List Char) (r : Reg) (i : Nat) : MatchResult :=
  mtch (fuelFor s) r s i [] (fun j c => some (j, c))

/-- Model of `captures_iter(..).find(pred)`: scan start positions left to
right; at the first position where the pattern matches, test `pred` on the
match; on failure continue scanning from the end of that match
(non-overlapping iteration, advancing at least one position). -/
def findFrom (s : List Char) (r : Reg) (pred : Nat → Nat → Caps → Bool) (gas : Nat) :
    Nat → Option (Nat × Nat × Caps) :=
  @Nat.rec (fun _ => Nat → Option (Nat × Nat × Caps))
    (fun _ => none)
    (fun _ ih i =>
      if s.length < i then none
      else
        match runAt s r i with
        | some (j, c) => if pred i j c then some (i, j, c) else ih (Nat.max j (i+1))
        | none => ih (i+1))
    gas

def findCaptures (s : List Char) (r : Reg) (pred : Nat → Nat → Caps → Bool) :
    Option (Nat × Nat × Caps) :=
  findFrom s r pred (s.length + 2) 0

def notDelim (c : Char) : Bool := !(c == '[' || c == ']' || c == '(' || c == ')')

def isBackslash (c : Char) : Bool := c == '\\'

def isSquare (c : Char) : Bool := c == '[' || c == ']'

/-- Single-character literal. -/
def litC (c : Char) : Reg := .cls (fun x => x == c)

/-- The character-class fragment `(([^\[\]\(\)]|\\)[\[\]]?)` bound to
`link_char` in `MDLinkParser::parse` (parser.rs line 225), with the source's
comment "Excludes [,],(,), except for when it is escaped".  Note that as
written it matches any non-delimiter character optionally followed by a square
bracket; the `|\\` alternative is subsumed by the negated class. -/
def link_char : Reg :=
  .seq (.alt (.cls notDelim) (.cls isBackslash)) (.opt (.cls isSquare))

/-- Named capture-group identifiers (`file_ref`, `index`, `heading`,
`display`, `grep` in the source patterns). -/
def gFileRef : Nat := 0

def gIndex : Nat := 1

def gHeading : Nat := 2

def gDisplay : Nat := 3

def gGrep : Nat := 4

/-- Look up the most recent binding of group `n` (Rust `Captures::name`). -/
def capLookup (n : Nat) : Caps → Option (Nat × Nat)
  | [] => none
  | (m, st, en) :: rest => if m = n then some (st, en) else capLookup n rest

/-- The text of a capture (Rust `Match::as_str`). -/
def capStr (s : List Char) (p : Nat × Nat) : List Char :=
  (s.drop p.1).take (p.2 - p.1)

/-- `EntityInfileQuery` from parser.rs lines 88-94: payload strings may be
empty and exclude the `#` respectively `^` markers. -/
inductive EntityInfileQuery where
  | Heading (h : List Char)
  | Index (i : List Char)
deriving DecidableEq

/-- `NamedRefCmdQuery` from parser.rs lines 70-74. -/
structure NamedRefCmdQuery where
  file_query : List Char
  infile_query : Option EntityInfileQuery
deriving DecidableEq

/-- `BlockLinkCmdQuery` from parser.rs lines 96-100; `grep_string` is the raw
captured text, possibly still containing escape sequences. -/
structure BlockLinkCmdQuery where
  grep_string : List Char
deriving DecidableEq

/-- Left-to-right, non-overlapping replacement of the two-character pattern
`a b` by `rep`: the model of Rust `str::replace` for the two-character
patterns `\[` and `\]` used by `BlockLinkCmdQuery`. -/
def replacePair (a b : Char) (rep : List Char) : List Char → List Char
  | [] => []
  | [c] => [c]
  | c :: d :: rest =>
    if c = a ∧ d = b then rep ++ replacePair a b rep rest
    else c :: replacePair a b rep (d :: rest)

/-- `BlockLinkCmdQuery::grep_string()` (parser.rs lines 103-108): replace
`\[` by `[`, then `\]` by `]`.  Named `grepString` because the Lean field
projection already takes the source name. -/
def BlockLinkCmdQuery.grepString (q : BlockLinkCmdQuery) : List Char :=
  replacePair '\\' ']' [']'] (replacePair '\\' '[' ['['] q.grep_string)

/-- `BlockLinkCmdQuery::display_grep_string()` (parser.rs lines 109-114):
remove `\[` and `\]` entirely. -/
def BlockLinkCmdQuery.display_grep_string (q : BlockLinkCmdQuery) : List Char :=
  replacePair '\\' ']' [] (replacePair '\\' '[' [] q.grep_string)

/-- `QuerySyntaxTypeInfo` from parser.rs lines 156-160. -/
inductive QuerySyntaxTypeInfo where
  | Markdown (display : List Char)
  | Wiki (display : Option (List Char))
deriving DecidableEq

/-- `QuerySyntaxInfo` from parser.rs lines 138-143; the field is named
`syntax_type_info` in the source. -/
structure QuerySyntaxInfo where
  typeInfo : QuerySyntaxTypeInfo
deriving DecidableEq

/-- `QuerySyntaxInfo::display` (parser.rs lines 145-152). -/
def QuerySyntaxInfo.display (info : QuerySyntaxInfo) : Option (List Char) :=
  match info.typeInfo with
  | .Markdown d => some d
  | .Wiki d => d

/-- The `MDRegexParseable` capability (parser.rs lines 211-214): extraction
from captures plus the payload-grammar fragment parameterised by the
character class. -/
class MDRegexParseable (T : Type) where
  from_captures : List Char → Caps → Option T
  associated_regex_constructor : Reg → Reg

def fromCapturesOf (T : Type) [i : MDRegexParseable T] : List Char → Caps → Option T :=
  @MDRegexParseable.from_captures T i

def regexConstructorOf (T : Type) [i : MDRegexParseable T] : Reg → Reg :=
  @MDRegexParseable.associated_regex_constructor T i

/-- Impl of `MDRegexParseable` for `NamedRefCmdQuery` (parser.rs lines
162-185).  `from_captures` requires `file_ref` and takes `heading` before
`index` via `or_else`; the fragment is
`(?<file_ref>cc*?)(#((\^(?<index>cc*?))|(?<heading>cc*?)))??`. -/
instance namedRefParseable : MDRegexParseable NamedRefCmdQuery where
  from_captures s caps :=
    match capLookup gFileRef caps with
    | none => none
    | some fr =>
      some { file_query := capStr s fr
             infile_query :=
               ((capLookup gHeading caps).map
                  (fun m => EntityInfileQuery.Heading (capStr s m))).orElse
                 (fun _ => (capLookup gIndex caps).map
                    (fun m => EntityInfileQuery.Index (capStr s m))) }
  associated_regex_constructor cc :=
    .seq (.grp gFileRef (.starL cc))
      (.optL (.seq (litC '#')
        (.alt (.seq (litC '^') (.grp gIndex (.starL cc)))
              (.grp gHeading (.starL cc)))))

/-- Impl of `MDRegexParseable` for `BlockLinkCmdQuery` (parser.rs lines
187-197); the fragment is a literal space then `(?<grep>cc*?)`. -/
instance blockLinkParseable : MDRegexParseable BlockLinkCmdQuery where
  from_captures s caps := (capLookup gGrep caps).map (fun m => ⟨capStr s m⟩)
  associated_regex_constructor cc := .seq (litC ' ') (.grp gGrep (.starL cc))

/-- `\[\[{query_re}(\|(?<display>{link_char}*?))?\]\]` (parser.rs 229-232). -/
def wiki_re_with_closing (q : Reg) : Reg :=
  .seq (litC '[') (.seq (litC '[')
    (.seq q (.seq (.opt (.seq (litC '|') (.grp gDisplay (.starL link_char))))
      (.seq (litC ']') (litC ']')))))

/-- `\[\[{query_re}$` (parser.rs 235-236). -/
def wiki_re_without_closing (q : Reg) : Reg :=
  .seq (litC '[') (.seq (litC '[') (.seq q .eos))

/-- `\[(?<display>{link_char}*?)\]\({query_re}\)` (parser.rs 238-240). -/
def md_re_with_closing (q : Reg) : Reg :=
  .seq (litC '[') (.seq (.grp gDisplay (.starL link_char))
    (.seq (litC ']') (.seq (litC '(') (.seq q (litC ')')))))

/-- `\[(?<display>{link_char}*?)\]\({query_re}$` (parser.rs 242-244). -/
def md_re_without_closing (q : Reg) : Reg :=
  .seq (litC '[') (.seq (.grp gDisplay (.starL link_char))
    (.seq (litC ']') (.seq (litC '(') (.seq q .eos))))

/-- `ParsedLinkType` (parser.rs 303-307). -/
inductive ParsedLinkType where
  | Closed
  | Unclosed
deriving DecidableEq

/-- `SyntaxType` (parser.rs 308-312). -/
inductive SyntaxType where
  | Markdown
  | Wiki
deriving DecidableEq

/-- Rust panic outcomes of `MDLinkParser::parse`: slicing `&hay[..character]`
out of bounds (parser.rs 255, 271), and
`.expect("that the display should not be none on markdown link")`
(parser.rs 294). -/
inductive PanicKind where
  | sliceOutOfBounds
  | displayExpected
deriving DecidableEq

/-- `m.range().contains(&character)` for closed matches (parser.rs 250, 264):
`start <= character && character < end` (Rust `Range::contains` is half-open). -/
def closedPred (ch : Nat) : Nat → Nat → Caps → Bool :=
  fun st en _ => decide (st ≤ ch) && decide (ch < en)

/-- `m.range().start < character` for unclosed matches (parser.rs 256, 271). -/
def unclosedPred (ch : Nat) : Nat → Nat → Caps → Bool :=
  fun st _ _ => decide (st < ch)

/-- The priority chain of parser.rs lines 246-273: wiki-closed on the full
line, else wiki-unclosed on `hay[..character]`, else markdown-closed on the
full line, else markdown-unclosed on `hay[..character]`, returning on the
first success.  The slice `hay[..character]` is evaluated lazily inside the
first `or_else` closure, so the out-of-bounds panic occurs exactly when
step 1 fails and `character > hay.len()`. -/
def MDLinkParser.findLink (wc wu mc mu : Reg) (hay : List Char) (character : Nat) :
    Except PanicKind (Option ((Nat × Nat × Caps) × ParsedLinkType × SyntaxType)) :=
  match findCaptures hay wc (closedPred character) with
  | some m => .ok (some (m, .Closed, .Wiki))
  | none =>
    if character ≤ hay.length then
      match findCaptures (hay.take character) wu (unclosedPred character) with
      | some m => .ok (some (m, .Unclosed, .Wiki))
      | none =>
        match findCaptures hay mc (closedPred character) with
        | some m => .ok (some (m, .Closed, .Markdown))
        | none =>
          match findCaptures (hay.take character) mu (unclosedPred character) with
          | some m => .ok (some (m, .Unclosed, .Markdown))
          | none => .ok none
    else .error .sliceOutOfBounds

/-- Metadata assembly of parser.rs lines 275-299: `char_range` is the match's
full span for a closed match and `[match_start, character)` for an unclosed
one; the display capture is read; `T::from_captures` may refuse (the `?` on
line 285 turns that into `None`); a markdown match with no display capture is
the `expect` panic of line 294.  Captures of the unclosed patterns were taken
over the truncated line, so their text is read there. -/
def MDLinkParser.assemble (T : Type) [MDRegexParseable T] (hay : List Char) (character : Nat)
    (m : (Nat × Nat × Caps) × ParsedLinkType × SyntaxType) :
    Except PanicKind (Option (T × (Nat × Nat) × QuerySyntaxInfo)) :=
  match m with
  | ((st, en, caps), lt, syn) =>
    let usedHay := match lt with | .Closed => hay | .Unclosed => hay.take character
    let char_range : Nat × Nat :=
      (st, match lt with | .Closed => en | .Unclosed => character)
    let display := (capLookup gDisplay caps).map (capStr usedHay)
    match fromCapturesOf T usedHay caps with
    | none => .ok none
    | some qv =>
      match syn, display with
      | .Markdown, none => .error .displayExpected
      | .Markdown, some d => .ok (some (qv, char_range, ⟨.Markdown d⟩))
      | .Wiki, dOpt => .ok (some (qv, char_range, ⟨.Wiki dOpt⟩))

/-- The four grammars of `MDLinkParser::parse` for query type `T`, assembled
from `T`'s payload fragment over `link_char` (parser.rs lines 227-244). -/
def MDLinkParser.findLinkFor (T : Type) [MDRegexParseable T] (hay : List Char) (character : Nat) :
    Except PanicKind (Option ((Nat × Nat × Caps) × ParsedLinkType × SyntaxType)) :=
  MDLinkParser.findLink
    (wiki_re_with_closing (regexConstructorOf T link_char))
    (wiki_re_without_closing (regexConstructorOf T link_char))
    (md_re_with_closing (regexConstructorOf T link_char))
    (md_re_without_closing (regexConstructorOf T link_char))
    hay character

/-- `MDLinkParser::parse` (parser.rs lines 224-300): the priority chain, then
metadata assembly.  `.ok none` is Rust `None`; `.error` is a Rust panic. -/
def MDLinkParser.parse (T : Type) [MDRegexParseable T] (hay : List Char) (character : Nat) :
    Except PanicKind (Option (T × (Nat × Nat) × QuerySyntaxInfo)) :=
  match MDLinkParser.findLinkFor T hay character with
  | .error e => .error e
  | .ok none => .ok none
  | .ok (some m) => MDLinkParser.assemble T hay character m

/-- `Parser::parse_entity_query` (parser.rs lines 17-22, 35-45) after the
line-source collaborator has produced the line's text: the spec treats line
retrieval as an external collaborator, so the facade is modelled over the
resolved line text and cursor character. -/
def parse_entity_query (lineText : List Char) (character : Nat) :
    Except PanicKind (Option (NamedRefCmdQuery × (Nat × Nat) × QuerySyntaxInfo)) :=
  MDLinkParser.parse NamedRefCmdQuery lineText character

/-- `Parser::parse_block_query` (parser.rs lines 24-29, 35-45), over the
resolved line text. -/
def parse_block_query (lineText : List Char) (character : Nat) :
    Except PanicKind (Option (BlockLinkCmdQuery × (Nat × Nat) × QuerySyntaxInfo)) :=
  MDLinkParser.parse BlockLinkCmdQuery lineText character

instance linkMatchDecEq : DecidableEq ((Nat × Nat × Caps) × ParsedLinkType × SyntaxType) :=
  @instDecidableEqProd _ _ (inferInstanceAs (DecidableEq (Nat × Nat × Caps)))
    (inferInstanceAs (DecidableEq (ParsedLinkType × SyntaxType)))

instance {e a : Type} [DecidableEq e] [DecidableEq a] : DecidableEq (Except e a)
  | .ok x, .ok y =>
    if h : x = y then isTrue (by rw [h])
    else isFalse (by intro hc; cases hc; exact h rfl)
  | .ok _, .error _ => isFalse (by intro h; cases h)
  | .error _, .ok _ => isFalse (by intro h; cases h)
  | .error x, .error y =>
    if h : x = y then isTrue (by rw [h])
    else isFalse (by intro hc; cases hc; exact h rfl)

/-! Helper lemmas about the matcher and the parse pipeline. -/

theorem mtch_zero : mtch 0 = fun _ _ _ _ _ => none := rfl

theorem mtch_succ (n : Nat) : mtch (n + 1) = mstep (mtch n) := rfl

theorem orElse_cases {a : Type} {x : Option a} {f : Unit → Option a} {v : a}
    (h : x.orElse f = some v) : x = some v ∨ (x = none ∧ f () = some v) := by
  cases x with
  | none => exact Or.inr ⟨rfl, h⟩
  | some w => exact Or.inl h

theorem capLookup_isSome_cons (g : Nat) (x : Nat × Nat × Nat) (c : Caps)
    (h : (capLookup g c).isSome = true) : (capLookup g (x :: c)).isSome = true := by
  obtain ⟨m, st, en⟩ := x
  simp only [capLookup]
  split
  · rfl
  · exact h

theorem capLookup_isSome_append (g : Nat) (pre c : Caps)
    (h : (capLookup g c).isSome = true) : (capLookup g (pre ++ c)).isSome = true := by
  induction pre with
  | nil => simpa using h
  | cons x tl ih => rw [List.cons_append]; exact capLookup_isSome_cons g x (tl ++ c) ih

/-- A successful match invokes its continuation with capture bindings that
extend the incoming ones (bindings are only ever added). -/
theorem mtch_ext : ∀ (fuel : Nat) (r : Reg) (s : List Char) (i : Nat) (caps : Caps) (k : Cont)
    (out : Nat × Caps), mtch fuel r s i caps k = some out →
    ∃ j c2, (∃ pre, c2 = pre ++ caps) ∧ k j c2 = some out := by
  intro fuel
  induction fuel with
  | zero => intro r s i caps k out h; simp [mtch_zero] at h
  | succ n ih =>
    intro r s i caps k out h
    rw [mtch_succ] at h
    cases r with
    | eps => exact ⟨i, caps, ⟨[], by simp⟩, h⟩
    | cls p =>
      simp only [mstep] at h
      split at h
      · split at h
        · exact ⟨_, caps, ⟨[], by simp⟩, h⟩
        · cases h
      · cases h
    | seq a b =>
      simp only [mstep] at h
      obtain ⟨j, c2, ⟨pre, hpre⟩, hk⟩ := ih a s i caps _ out h
      obtain ⟨j2, c3, ⟨pre2, hpre2⟩, hk2⟩ := ih b s j c2 k out hk
      exact ⟨j2, c3, ⟨pre2 ++ pre, by rw [hpre2, hpre, List.append_assoc]⟩, hk2⟩
    | alt a b =>
      simp only [mstep] at h
      rcases orElse_cases h with h1 | ⟨_, h2⟩
      · exact ih a s i caps k out h1
      · exact ih b s i caps k out h2
    | opt a =>
      simp only [mstep] at h
      rcases orElse_cases h with h1 | ⟨_, h2⟩
      · exact ih a s i caps k out h1
      · exact ⟨i, caps, ⟨[], by simp⟩, h2⟩
    | optL a =>
      simp only [mstep] at h
      rcases orElse_cases h with h1 | ⟨_, h2⟩
      · exact ⟨i, caps, ⟨[], by simp⟩, h1⟩
      · exact ih a s i caps k out h2
    | starL a =>
      simp only [mstep] at h
      rcases orElse_cases h with h1 | ⟨_, h2⟩
      · exact ⟨i, caps, ⟨[], by simp⟩, h1⟩
      · obtain ⟨j, c2, ⟨pre, hpre⟩, hk⟩ := ih a s i caps _ out h2
        split at hk
        · obtain ⟨j2, c3, ⟨pre2, hpre2⟩, hk2⟩ := ih (.starL a) s j c2 k out hk
          exact ⟨j2, c3, ⟨pre2 ++ pre, by rw [hpre2, hpre, List.append_assoc]⟩, hk2⟩
        · cases hk
    | grp g a =>
      simp only [mstep] at h
      obtain ⟨j, c2, ⟨pre, hpre⟩, hk⟩ := ih a s i caps _ out h
      exact ⟨j, (g, i, j) :: c2, ⟨(g, i, j) :: pre, by rw [hpre]; rfl⟩, hk⟩
    | eos =>
      simp only [mstep] at h
      split at h
      · exact ⟨i, caps, ⟨[], by simp⟩, h⟩
      · cases h

/-- Group `g` participates on every successful path through `r`. -/
def mandGrp (g : Nat) : Reg → Bool
  | .grp g2 a => g2 == g || mandGrp g a
  | .seq a b => mandGrp g a || mandGrp g b
  | .alt a b => mandGrp g a && mandGrp g b
  | _ => false

/-- If `g` is mandatory in `r`, a successful match invokes the continuation
with a binding for `g` present. -/
theorem mtch_mand (g : Nat) : ∀ (fuel : Nat) (r : Reg) (s : List Char) (i : Nat) (caps : Caps)
    (k : Cont) (out : Nat × Caps),
    mtch fuel r s i caps k = some out → mandGrp g r = true →
    ∃ j c2, k j c2 = some out ∧ (capLookup g c2).isSome = true := by
  intro fuel
  induction fuel with
  | zero => intro r s i caps k out h _; simp [mtch_zero] at h
  | succ n ih =>
    intro r s i caps k out h hm
    rw [mtch_succ] at h
    cases r with
    | eps => simp [mandGrp] at hm
    | cls p => simp [mandGrp] at hm
    | eos => simp [mandGrp] at hm
    | opt a => simp [mandGrp] at hm
    | optL a => simp [mandGrp] at hm
    | starL a => simp [mandGrp] at hm
    | seq a b =>
      simp only [mstep] at h
      rcases (by simpa [mandGrp] using hm : mandGrp g a = true ∨ mandGrp g b = true) with ha | hb
      · obtain ⟨j, c2, hk1, hg⟩ := ih a s i caps _ out h ha
        obtain ⟨j2, c3, ⟨pre, hpre⟩, hk2⟩ := mtch_ext n b s j c2 k out hk1
        exact ⟨j2, c3, hk2, by rw [hpre]; exact capLookup_isSome_append g pre c2 hg⟩
      · obtain ⟨j, c2, _, hk1⟩ := mtch_ext n a s i caps _ out h
        exact ih b s j c2 k out hk1 hb
    | alt a b =>
      simp only [mstep] at h
      have hab : mandGrp g a = true ∧ mandGrp g b = true := by simpa [mandGrp] using hm
      rcases orElse_cases h with h1 | ⟨_, h2⟩
      · exact ih a s i caps k out h1 hab.1
      · exact ih b s i caps k out h2 hab.2
    | grp g2 a =>
      simp only [mstep] at h
      rcases (by simpa [mandGrp] using hm : g2 = g ∨ mandGrp g a = true) with hge | ha
      · obtain ⟨j, c2, _, hk⟩ := mtch_ext n a s i caps _ out h
        refine ⟨j, (g2, i, j) :: c2, hk, ?_⟩
        simp [capLookup, hge]
      · obtain ⟨j, c2, hk, hg⟩ := ih a s i caps _ out h ha
        exact ⟨j, (g2, i, j) :: c2, hk, capLookup_isSome_cons g _ c2 hg⟩

/-- `r` contains no capture group with id `g`. -/
def noGrp (g : Nat) : Reg → Bool
  | .grp g2 a => (g2 != g) && noGrp g a
  | .seq a b => noGrp g a && noGrp g b
  | .alt a b => noGrp g a && noGrp g b
  | .opt a => noGrp g a
  | .optL a => noGrp g a
  | .starL a => noGrp g a
  | _ => true

/-- Every occurrence of group `g` in the pattern is immediately preceded by a
single-character class whose accepted characters all satisfy `sp`: the only
way to mention group `g` is the `guardedSeq` shape `(cls p)(grp g b)`. -/
inductive Guarded (g : Nat) (sp : Char → Prop) : Reg → Prop where
  | eps : Guarded g sp .eps
  | cls (p : Char → Bool) : Guarded g sp (.cls p)
  | eos : Guarded g sp .eos
  | seq (a b : Reg) : Guarded g sp a → Guarded g sp b → Guarded g sp (.seq a b)
  | guardedSeq (p : Char → Bool) (b : Reg) :
      (∀ c, p c = true → sp c) → Guarded g sp b →
      Guarded g sp (.seq (.cls p) (.grp g b))
  | alt (a b : Reg) : Guarded g sp a → Guarded g sp b → Guarded g sp (.alt a b)
  | opt (a : Reg) : Guarded g sp a → Guarded g sp (.opt a)
  | optL (a : Reg) : Guarded g sp a → Guarded g sp (.optL a)
  | starL (a : Reg) : Guarded g sp a → Guarded g sp (.starL a)
  | grpOther (g2 : Nat) (a : Reg) : g2 ≠ g → Guarded g sp a → Guarded g sp (.grp g2 a)

/-- Every binding of group `g` in `c` starts at a position whose immediately
preceding character of `s` satisfies `sp`. -/
def capsSpaceGuarded (g : Nat) (sp : Char → Prop) (s : List Char) (c : Caps) : Prop :=
  ∀ st en, (g, st, en) ∈ c → 1 ≤ st ∧ ∃ c0, s[st - 1]? = some c0 ∧ sp c0

theorem guarded_of_noGrp (g : Nat) (sp : Char → Prop) :
    ∀ r, noGrp g r = true → Guarded g sp r := by
  intro r
  induction r with
  | eps => intro _; exact .eps
  | cls p => intro _; exact .cls p
  | eos => intro _; exact .eos
  | seq a b iha ihb =>
    intro h
    obtain ⟨h1, h2⟩ : noGrp g a = true ∧ noGrp g b = true := by simpa [noGrp] using h
    exact .seq a b (iha h1) (ihb h2)
  | alt a b iha ihb =>
    intro h
    obtain ⟨h1, h2⟩ : noGrp g a = true ∧ noGrp g b = true := by simpa [noGrp] using h
    exact .alt a b (iha h1) (ihb h2)
  | opt a iha => intro h; exact .opt a (iha (by simpa [noGrp] using h))
  | optL a iha => intro h; exact .optL a (iha (by simpa [noGrp] using h))
  | starL a iha => intro h; exact .starL a (iha (by simpa [noGrp] using h))
  | grp g2 a iha =>
    intro h
    obtain ⟨h1, h2⟩ : g2 ≠ g ∧ noGrp g a = true := by simpa [noGrp] using h
    exact .grpOther g2 a h1 (iha h2)

/-- In a guarded pattern, a successful match invokes its continuation with
captures whose `g`-bindings all start right after an `sp`-character: the
guard character is consumed immediately before the group opens. -/
theorem mtch_guarded (g : Nat) (sp : Char → Prop) (s : List Char) :
    ∀ (fuel : Nat) (r : Reg) (i : Nat) (caps : Caps) (k : Cont) (out : Nat × Caps),
      mtch fuel r s i caps k = some out → Guarded g sp r →
      capsSpaceGuarded g sp s caps →
      ∃ j c2, k j c2 = some out ∧ capsSpaceGuarded g sp s c2 := by
  intro fuel
  induction fuel using Nat.strong_induction_on with
  | _ fuel ih =>
    intro r i caps k out h hg hc
    cases fuel with
    | zero => simp [mtch_zero] at h
    | succ n =>
      rw [mtch_succ] at h
      cases hg with
      | eps => exact ⟨i, caps, h, hc⟩
      | cls p =>
        simp only [mstep] at h
        split at h
        · split at h
          · exact ⟨i + 1, caps, h, hc⟩
          · cases h
        · cases h
      | eos =>
        simp only [mstep] at h
        split at h
        · exact ⟨i, caps, h, hc⟩
        · cases h
      | seq a b hga hgb =>
        simp only [mstep] at h
        obtain ⟨j, c2, hk1, hc2⟩ := ih n (by omega) a i caps _ out h hga hc
        exact ih n (by omega) b j c2 k out hk1 hgb hc2
      | guardedSeq p b hp hgb =>
        simp only [mstep] at h
        cases n with
        | zero => simp [mtch_zero] at h
        | succ n2 =>
          rw [mtch_succ] at h
          simp only [mstep] at h
          split at h
          · next c0 heq =>
            split at h
            · next hp0 =>
              obtain ⟨j, c2, hk, hc2⟩ := ih n2 (by omega) b (i + 1) caps _ out h hgb hc
              refine ⟨j, (g, i + 1, j) :: c2, hk, ?_⟩
              intro st en hmem
              rcases List.mem_cons.mp hmem with heq2 | hmem2
              · obtain ⟨h4, h5⟩ : st = i + 1 ∧ en = j := by simpa using heq2
                subst h4
                exact ⟨by omega, c0, by simpa using heq, hp c0 hp0⟩
              · exact hc2 st en hmem2
            · cases h
          · cases h
      | alt a b hga hgb =>
        simp only [mstep] at h
        rcases orElse_cases h with h1 | ⟨_, h2⟩
        · exact ih n (by omega) a i caps k out h1 hga hc
        · exact ih n (by omega) b i caps k out h2 hgb hc
      | opt a hga =>
        simp only [mstep] at h
        rcases orElse_cases h with h1 | ⟨_, h2⟩
        · exact ih n (by omega) a i caps k out h1 hga hc
        · exact ⟨i, caps, h2, hc⟩
      | optL a hga =>
        simp only [mstep] at h
        rcases orElse_cases h with h1 | ⟨_, h2⟩
        · exact ⟨i, caps, h1, hc⟩
        · exact ih n (by omega) a i caps k out h2 hga hc
      | starL a hga =>
        simp only [mstep] at h
        rcases orElse_cases h with h1 | ⟨_, h2⟩
        · exact ⟨i, caps, h1, hc⟩
        · obtain ⟨j, c2, hk, hc2⟩ := ih n (by omega) a i caps _ out h2 hga hc
          split at hk
          · exact ih n (by omega) (.starL a) j c2 k out hk (Guarded.starL a hga) hc2
          · cases hk
      | grpOther g2 a hne hga =>
        simp only [mstep] at h
        obtain ⟨j, c2, hk, hc2⟩ := ih n (by omega) a i caps _ out h hga hc
        refine ⟨j, (g2, i, j) :: c2, hk, ?_⟩
        intro st en hmem
        rcases List.mem_cons.mp hmem with heq2 | hmem2
        · exfalso
          obtain ⟨hgg, -, -⟩ : g = g2 ∧ st = i ∧ en = j := by simpa using heq2
          exact hne hgg.symm
        · exact hc2 st en hmem2

theorem runAt_guarded (g : Nat) (sp : Char → Prop) (s : List Char) (r : Reg)
    (i en : Nat) (c : Caps) (hg : Guarded g sp r) (h : runAt s r i = some (en, c)) :
    capsSpaceGuarded g sp s c := by
  unfold runAt at h
  obtain ⟨j, c2, hk, hc2⟩ := mtch_guarded g sp s (fuelFor s) r i [] _ (en, c) h hg
    (by intro st en2 hmem; cases hmem)
  obtain ⟨h1, h2⟩ : j = en ∧ c2 = c := by simpa using hk
  exact h2 ▸ hc2

theorem capLookup_mem (g : Nat) : ∀ (c : Caps) (st en : Nat),
    capLookup g c = some (st, en) → (g, st, en) ∈ c := by
  intro c
  induction c with
  | nil => intro st en h; cases h
  | cons x tl ih =>
    intro st en h
    obtain ⟨m, a, b⟩ := x
    simp only [capLookup] at h
    split at h
    · next heq =>
      obtain ⟨h1, h2⟩ : a = st ∧ b = en := by simpa using h
      subst heq; subst h1; subst h2
      exact List.mem_cons_self _ _
    · exact List.mem_cons_of_mem _ (ih st en h)

theorem findFrom_zero (s : List Char) (r : Reg) (pred : Nat → Nat → Caps → Bool) :
    findFrom s r pred 0 = fun _ => none := rfl

theorem findFrom_succ (s : List Char) (r : Reg) (pred : Nat → Nat → Caps → Bool)
    (gas i : Nat) :
    findFrom s r pred (gas + 1) i =
      (if s.length < i then none
       else
         match runAt s r i with
         | some (j, c) =>
           if pred i j c then some (i, j, c) else findFrom s r pred gas (Nat.max j (i+1))
         | none => findFrom s r pred gas (i+1)) := rfl

/-- Whatever `find` returns satisfies the predicate and is a real anchored
match at its start position. -/
theorem findFrom_sound (s : List Char) (r : Reg) (pred : Nat → Nat → Caps → Bool) :
    ∀ (gas i st en : Nat) (c : Caps),
      findFrom s r pred gas i = some (st, en, c) →
      pred st en c = true ∧ runAt s r st = some (en, c) := by
  intro gas
  induction gas with
  | zero => intro i st en c h; simp [findFrom_zero] at h
  | succ n ih =>
    intro i st en c h
    rw [findFrom_succ] at h
    split at h
    · cases h
    · split at h
      · next j c2 heq =>
        split at h
        · next hp =>
          obtain ⟨h1, h2, h3⟩ : i = st ∧ j = en ∧ c2 = c := by
            simpa using h
          subst h1; subst h2; subst h3
          exact ⟨hp, heq⟩
        · exact ih _ _ _ _ h
      · exact ih _ _ _ _ h

theorem findCaptures_sound (s : List Char) (r : Reg) (pred : Nat → Nat → Caps → Bool)
    (st en : Nat) (c : Caps) (h : findCaptures s r pred = some (st, en, c)) :
    pred st en c = true ∧ runAt s r st = some (en, c) :=
  findFrom_sound s r pred (s.length + 2) 0 st en c h

/-- Case analysis for a successful priority chain: the result comes from one
of the four searches with the matching closure/syntax tags. -/
theorem findLink_sound (wc wu mc mu : Reg) (hay : List Char) (ch : Nat)
    (st en : Nat) (c : Caps) (lt : ParsedLinkType) (syn : SyntaxType)
    (h : MDLinkParser.findLink wc wu mc mu hay ch = .ok (some ((st, en, c), lt, syn))) :
    (findCaptures hay wc (closedPred ch) = some (st, en, c)
        ∧ lt = ParsedLinkType.Closed ∧ syn = SyntaxType.Wiki)
    ∨ (findCaptures (hay.take ch) wu (unclosedPred ch) = some (st, en, c)
        ∧ lt = ParsedLinkType.Unclosed ∧ syn = SyntaxType.Wiki)
    ∨ (findCaptures hay mc (closedPred ch) = some (st, en, c)
        ∧ lt = ParsedLinkType.Closed ∧ syn = SyntaxType.Markdown)
    ∨ (findCaptures (hay.take ch) mu (unclosedPred ch) = some (st, en, c)
        ∧ lt = ParsedLinkType.Unclosed ∧ syn = SyntaxType.Markdown) := by
  unfold MDLinkParser.findLink at h
  split at h
  · next m heq =>
    obtain ⟨h1, h2, h3⟩ : m = (st, en, c) ∧ ParsedLinkType.Closed = lt
        ∧ SyntaxType.Wiki = syn := by simpa using h
    exact Or.inl ⟨h1 ▸ heq, h2.symm, h3.symm⟩
  · next heq0 =>
    split at h
    · split at h
      · next m heq =>
        obtain ⟨h1, h2, h3⟩ : m = (st, en, c) ∧ ParsedLinkType.Unclosed = lt
            ∧ SyntaxType.Wiki = syn := by simpa using h
        exact Or.inr (Or.inl ⟨h1 ▸ heq, h2.symm, h3.symm⟩)
      · split at h
        · next m heq =>
          obtain ⟨h1, h2, h3⟩ : m = (st, en, c) ∧ ParsedLinkType.Closed = lt
              ∧ SyntaxType.Markdown = syn := by simpa using h
          exact Or.inr (Or.inr (Or.inl ⟨h1 ▸ heq, h2.symm, h3.symm⟩))
        · split at h
          · next m heq =>
            obtain ⟨h1, h2, h3⟩ : m = (st, en, c) ∧ ParsedLinkType.Unclosed = lt
                ∧ SyntaxType.Markdown = syn := by simpa using h
            exact Or.inr (Or.inr (Or.inr ⟨h1 ▸ heq, h2.symm, h3.symm⟩))
          · cases h
    · cases h

/-- The priority chain panics exactly on an out-of-bounds slice. -/
theorem findLink_error (wc wu mc mu : Reg) (hay : List Char) (ch : Nat) (e : PanicKind)
    (h : MDLinkParser.findLink wc wu mc mu hay ch = .error e) : hay.length < ch := by
  unfold MDLinkParser.findLink at h
  split at h
  · cases h
  · split at h
    · split at h
      · cases h
      · split at h
        · cases h
        · split at h
          · cases h
          · cases h
    · next hcond => exact Nat.not_le.mp hcond

/-- A successful assembly reproduces the source's span computation: full match
span when closed, `[match_start, character)` when unclosed (parser.rs 275-280). -/
theorem assemble_sound (T : Type) (instT : MDRegexParseable T) (hay : List Char) (ch : Nat)
    (st en : Nat) (c : Caps) (lt : ParsedLinkType) (syn : SyntaxType)
    (q : T) (rs re : Nat) (info : QuerySyntaxInfo)
    (h : @MDLinkParser.assemble T instT hay ch ((st, en, c), lt, syn)
        = .ok (some (q, (rs, re), info))) :
    rs = st ∧ re = (match lt with | ParsedLinkType.Closed => en | ParsedLinkType.Unclosed => ch) := by
  cases lt <;>
    · simp only [MDLinkParser.assemble] at h
      split at h
      · cases h
      · split at h
        · cases h
        · obtain ⟨-, ⟨h1, h2⟩, -⟩ :=
            (by simpa using h : _ ∧ (st = rs ∧ _ = re) ∧ _)
          exact ⟨h1.symm, h2.symm⟩
        · obtain ⟨-, ⟨h1, h2⟩, -⟩ :=
            (by simpa using h : _ ∧ (st = rs ∧ _ = re) ∧ _)
          exact ⟨h1.symm, h2.symm⟩

/-- Assembly panics only when a markdown match carries no display capture
(the `expect` of parser.rs line 294). -/
theorem assemble_error (T : Type) (instT : MDRegexParseable T) (hay : List Char) (ch : Nat)
    (st en : Nat) (c : Caps) (lt : ParsedLinkType) (syn : SyntaxType) (e : PanicKind)
    (h : @MDLinkParser.assemble T instT hay ch ((st, en, c), lt, syn) = .error e) :
    syn = SyntaxType.Markdown ∧ capLookup gDisplay c = none := by
  cases syn with
  | Wiki =>
    exfalso
    cases lt <;>
      · simp only [MDLinkParser.assemble] at h
        split at h
        · cases h
        · cases h
  | Markdown =>
    refine ⟨rfl, ?_⟩
    cases hcap : capLookup gDisplay c with
    | none => rfl
    | some d =>
      exfalso
      cases lt <;>
        · simp only [MDLinkParser.assemble, hcap, Option.map_some'] at h
          split at h
          · cases h
          · cases h

/-- A successful parse factors through a successful priority-chain search and
a successful assembly. -/
theorem parse_elim (T : Type) (instT : MDRegexParseable T) (hay : List Char) (ch : Nat)
    (out : T × (Nat × Nat) × QuerySyntaxInfo)
    (h : @MDLinkParser.parse T instT hay ch = .ok (some out)) :
    ∃ m, @MDLinkParser.findLinkFor T instT hay ch = .ok (some m)
      ∧ @MDLinkParser.assemble T instT hay ch m = .ok (some out) := by
  unfold MDLinkParser.parse at h
  cases hf : @MDLinkParser.findLinkFor T instT hay ch with
  | error e => rw [hf] at h; cases h
  | ok o =>
    cases o with
    | none => rw [hf] at h; cases h
    | some m => rw [hf] at h; exact ⟨m, rfl, h⟩

/-- Both markdown grammars carry the display group on every successful path,
whatever payload fragment `q` the query type contributed. -/
theorem runAt_md_display (r q : Reg)
    (hr : r = md_re_with_closing q ∨ r = md_re_without_closing q)
    (s : List Char) (i en : Nat) (c : Caps) (h : runAt s r i = some (en, c)) :
    (capLookup gDisplay c).isSome = true := by
  have hm : mandGrp gDisplay r = true := by
    rcases hr with h1 | h1 <;> subst h1 <;>
      simp [mandGrp, md_re_with_closing, md_re_without_closing, litC]
  unfold runAt at h
  obtain ⟨j, c2, hk, hg⟩ := mtch_mand gDisplay (fuelFor s) r s i [] _ (en, c) h hm
  obtain ⟨h1, h2⟩ : j = en ∧ c2 = c := by simpa using hk
  exact h2 ▸ hg

theorem findLinkFor_def (T : Type) (instT : MDRegexParseable T) (hay : List Char) (ch : Nat) :
    @MDLinkParser.findLinkFor T instT hay ch =
      MDLinkParser.findLink
        (wiki_re_with_closing (regexConstructorOf T link_char))
        (wiki_re_without_closing (regexConstructorOf T link_char))
        (md_re_with_closing (regexConstructorOf T link_char))
        (md_re_without_closing (regexConstructorOf T link_char))
        hay ch := rfl

theorem block_from_captures_eq (s : List Char) (caps : Caps) :
    fromCapturesOf BlockLinkCmdQuery s caps
      = (capLookup gGrep caps).map (fun m => ⟨capStr s m⟩) := rfl

/-- The block payload fragment `" (?<grep>cc*?)"` puts the grep group right
after a literal space. -/
theorem guarded_blockQ :
    Guarded gGrep (fun c => c = ' ') (regexConstructorOf BlockLinkCmdQuery link_char) :=
  Guarded.guardedSeq _ _ (fun c h => by simpa using h)
    (Guarded.starL _ (guarded_of_noGrp gGrep _ link_char (by decide)))

theorem guarded_block_wiki_closed :
    Guarded gGrep (fun c => c = ' ')
      (wiki_re_with_closing (regexConstructorOf BlockLinkCmdQuery link_char)) := by
  unfold wiki_re_with_closing
  exact Guarded.seq _ _ (guarded_of_noGrp _ _ _ (by decide))
    (Guarded.seq _ _ (guarded_of_noGrp _ _ _ (by decide))
      (Guarded.seq _ _ guarded_blockQ
        (Guarded.seq _ _ (guarded_of_noGrp _ _ _ (by decide))
          (Guarded.seq _ _ (guarded_of_noGrp _ _ _ (by decide))
            (guarded_of_noGrp _ _ _ (by decide))))))

theorem guarded_block_wiki_unclosed :
    Guarded gGrep (fun c => c = ' ')
      (wiki_re_without_closing (regexConstructorOf BlockLinkCmdQuery link_char)) := by
  unfold wiki_re_without_closing
  exact Guarded.seq _ _ (guarded_of_noGrp _ _ _ (by decide))
    (Guarded.seq _ _ (guarded_of_noGrp _ _ _ (by decide))
      (Guarded.seq _ _ guarded_blockQ Guarded.eos))

theorem guarded_block_md_closed :
    Guarded gGrep (fun c => c = ' ')
      (md_re_with_closing (regexConstructorOf BlockLinkCmdQuery link_char)) := by
  unfold md_re_with_closing
  exact Guarded.seq _ _ (guarded_of_noGrp _ _ _ (by decide))
    (Guarded.seq _ _ (guarded_of_noGrp _ _ _ (by decide))
      (Guarded.seq _ _ (guarded_of_noGrp _ _ _ (by decide))
        (Guarded.seq _ _ (guarded_of_noGrp _ _ _ (by decide))
          (Guarded.seq _ _ guarded_blockQ (guarded_of_noGrp _ _ _ (by decide))))))

theorem guarded_block_md_unclosed :
    Guarded gGrep (fun c => c = ' ')
      (md_re_without_closing (regexConstructorOf BlockLinkCmdQuery link_char)) := by
  unfold md_re_without_closing
  exact Guarded.seq _ _ (guarded_of_noGrp _ _ _ (by decide))
    (Guarded.seq _ _ (guarded_of_noGrp _ _ _ (by decide))
      (Guarded.seq _ _ (guarded_of_noGrp _ _ _ (by decide))
        (Guarded.seq _ _ (guarded_of_noGrp _ _ _ (by decide))
          (Guarded.seq _ _ guarded_blockQ Guarded.eos))))

/-- A successful block-query assembly reads its `grep_string` from the grep
capture over the string the captures were taken on. -/
theorem assemble_block_sound (hay : List Char) (ch : Nat) (st en : Nat) (c : Caps)
    (lt : ParsedLinkType) (syn : SyntaxType) (q : BlockLinkCmdQuery)
    (rg : Nat × Nat) (info : QuerySyntaxInfo)
    (h : @MDLinkParser.assemble BlockLinkCmdQuery blockLinkParseable hay ch
        ((st, en, c), lt, syn) = .ok (some (q, rg, info))) :
    ∃ gs ge, capLookup gGrep c = some (gs, ge)
      ∧ q.grep_string
        = capStr (match lt with
            | ParsedLinkType.Closed => hay
            | ParsedLinkType.Unclosed => hay.take ch) (gs, ge) := by
  cases hcap : capLookup gGrep c with
  | none =>
    exfalso
    cases lt <;>
      · simp only [MDLinkParser.assemble, block_from_captures_eq, hcap,
          Option.map_none'] at h
        simp at h
  | some p =>
    obtain ⟨gs, ge⟩ := p
    refine ⟨gs, ge, rfl, ?_⟩
    cases lt with
    | Closed =>
      simp only [MDLinkParser.assemble, block_from_captures_eq, hcap,
        Option.map_some'] at h
      split at h
      · cases h
      · obtain ⟨h1, -⟩ :=
          (by simpa using h : BlockLinkCmdQuery.mk (capStr hay (gs, ge)) = q ∧ _)
        exact h1 ▸ rfl
      · obtain ⟨h1, -⟩ :=
          (by simpa using h : BlockLinkCmdQuery.mk (capStr hay (gs, ge)) = q ∧ _)
        exact h1 ▸ rfl
    | Unclosed =>
      simp only [MDLinkParser.assemble, block_from_captures_eq, hcap,
        Option.map_some'] at h
      split at h
      · cases h
      · obtain ⟨h1, -⟩ :=
          (by simpa using h :
            BlockLinkCmdQuery.mk (capStr (hay.take ch) (gs, ge)) = q ∧ _)
        exact h1 ▸ rfl
      · obtain ⟨h1, -⟩ :=
          (by simpa using h :
            BlockLinkCmdQuery.mk (capStr (hay.take ch) (gs, ge)) = q ∧ _)
        exact h1 ▸ rfl

/-! Claim theorems. -/

/-- C1: for every line text and cursor offset, if `MDLinkParser::parse` (and
hence the `parse_entity_query`/`parse_block_query` facades, which delegate to
it) returns a result, then the returned `char_range` satisfies
`char_range.start ≤ cursor ≤ char_range.end`. -/
theorem C1_char_range_contains_cursor (T : Type) (instT : MDRegexParseable T)
    (hay : List Char) (ch : Nat) (q : T) (rs re : Nat) (info : QuerySyntaxInfo)
    (h : @MDLinkParser.parse T instT hay ch = .ok (some (q, (rs, re), info))) :
    rs ≤ ch ∧ ch ≤ re := by
  obtain ⟨⟨⟨st, en, c⟩, lt, syn⟩, hfl, ha⟩ := parse_elim T instT hay ch _ h
  obtain ⟨hrs, hre⟩ := assemble_sound T instT hay ch st en c lt syn q rs re info ha
  rw [findLinkFor_def] at hfl
  have hfs := findLink_sound _ _ _ _ hay ch st en c lt syn hfl
  cases lt with
  | Closed =>
    have hre2 : re = en := hre
    have hcp : closedPred ch st en c = true := by
      rcases hfs with ⟨hc, _, _⟩ | ⟨_, hlt, _⟩ | ⟨hc, _, _⟩ | ⟨_, hlt, _⟩
      · exact (findCaptures_sound _ _ _ _ _ _ hc).1
      · cases hlt
      · exact (findCaptures_sound _ _ _ _ _ _ hc).1
      · cases hlt
    simp only [closedPred, Bool.and_eq_true, decide_eq_true_eq] at hcp
    omega
  | Unclosed =>
    have hre2 : re = ch := hre
    have hup : unclosedPred ch st en c = true := by
      rcases hfs with ⟨_, hlt, _⟩ | ⟨hc, _, _⟩ | ⟨_, hlt, _⟩ | ⟨hc, _, _⟩
      · cases hlt
      · exact (findCaptures_sound _ _ _ _ _ _ hc).1
      · cases hlt
      · exact (findCaptures_sound _ _ _ _ _ _ hc).1
    simp only [unclosedPred, decide_eq_true_eq] at hup
    omega

/-- Witness for C1: at line `[[file]]` with cursor 3 the parse succeeds with
`char_range = [0, 8)`, and the theorem yields `0 ≤ 3 ∧ 3 ≤ 8`. -/
theorem C1_char_range_contains_cursor_witness : (0 : Nat) ≤ 3 ∧ (3 : Nat) ≤ 8 :=
  C1_char_range_contains_cursor NamedRefCmdQuery namedRefParseable "[[file]]".data 3
    ⟨"file".data, none⟩ 0 8 ⟨.Wiki none⟩ (by decide)

/-- C2: the matcher evaluates the four grammars in the fixed order
wiki-closed, wiki-unclosed, markdown-closed, markdown-unclosed, returning on
the first success: whenever the wiki-unclosed search succeeds, the overall
result carries Wiki syntax (regardless of the markdown grammars); and on the
line `[[link]] [[file query` (a closed wiki reference followed by an unclosed
one) with the cursor inside the unclosed one, the result is the unclosed wiki
match. -/
theorem C2_priority_first_success :
    (∀ (wc mc mu q2 : Reg) (hay : List Char) (ch : Nat) (m : Nat × Nat × Caps),
        ch ≤ hay.length →
        findCaptures (hay.take ch) (wiki_re_without_closing q2) (unclosedPred ch) = some m →
        ∃ r lt, MDLinkParser.findLink wc (wiki_re_without_closing q2) mc mu hay ch
          = .ok (some (r, lt, SyntaxType.Wiki)))
    ∧ parse_entity_query "[[link]] [[file query".data 21
      = .ok (some (⟨"file query".data, none⟩, (9, 21), ⟨.Wiki none⟩)) := by
  constructor
  · intro wc mc mu q2 hay ch m hle hm
    cases h1 : findCaptures hay wc (closedPred ch) with
    | some m1 =>
      exact ⟨m1, .Closed, by unfold MDLinkParser.findLink; simp [h1]⟩
    | none =>
      exact ⟨m, .Unclosed, by unfold MDLinkParser.findLink; simp [h1, hle, hm]⟩
  · decide

/-- Witness for C2: on `[[link]] [[file query` with cursor 21 the
wiki-unclosed search finds the match starting at 9, so the priority chain
returns a Wiki-syntax result. -/
theorem C2_priority_first_success_witness :
    ∃ r lt, MDLinkParser.findLink
        (wiki_re_with_closing (regexConstructorOf NamedRefCmdQuery link_char))
        (wiki_re_without_closing (regexConstructorOf NamedRefCmdQuery link_char))
        (md_re_with_closing (regexConstructorOf NamedRefCmdQuery link_char))
        (md_re_without_closing (regexConstructorOf NamedRefCmdQuery link_char))
        "[[link]] [[file query".data 21 = .ok (some (r, lt, SyntaxType.Wiki)) :=
  C2_priority_first_success.1 _ _ _ (regexConstructorOf NamedRefCmdQuery link_char)
    "[[link]] [[file query".data 21 (9, 21, [(gFileRef, 11, 21)]) (by decide) (by decide)

/-- C3 counterexample: on line `[[file]]` the wiki-closed grammar matches the
span `[0, 8)` (endpoints 0 and 8), yet with the cursor exactly at the match
end 8 the parse returns no result — Rust `Range::contains` is half-open, so
a closed match is NOT selected when `cursor = match_end`, contradicting the
claim's "inclusive of both ends". -/
theorem C3_cursor_at_match_end_not_selected :
    (runAt "[[file]]".data
        (wiki_re_with_closing (regexConstructorOf NamedRefCmdQuery link_char)) 0).map
        (fun r => r.1) = some 8
    ∧ parse_entity_query "[[file]]".data 8 = .ok none := by decide

/-- C3 as amended: for the closed variants the matcher scans the full line
for non-overlapping matches and selects the first whose span contains the
cursor inclusive of the start and EXCLUSIVE of the end
(`match_start ≤ cursor < match_end`); concretely, on
`fjka[[thisis ]] [[ fjakl fdjk]][[fjk]]j` with cursor 29 the first,
non-containing closed match is skipped and the second is selected. -/
theorem C3_closed_selection_half_open :
    (∀ (wc wu mc mu : Reg) (hay : List Char) (ch st en : Nat) (c : Caps) (syn : SyntaxType),
        MDLinkParser.findLink wc wu mc mu hay ch
            = .ok (some ((st, en, c), ParsedLinkType.Closed, syn)) →
        st ≤ ch ∧ ch < en)
    ∧ parse_block_query "fjka[[thisis ]] [[ fjakl fdjk]][[fjk]]j".data 29
      = .ok (some (⟨"fjakl fdjk".data⟩, (16, 31), ⟨.Wiki none⟩)) := by
  constructor
  · intro wc wu mc mu hay ch st en c syn h
    have hfs := findLink_sound wc wu mc mu hay ch st en c _ syn h
    have hcp : closedPred ch st en c = true := by
      rcases hfs with ⟨hc, _, _⟩ | ⟨_, hlt, _⟩ | ⟨hc, _, _⟩ | ⟨_, hlt, _⟩
      · exact (findCaptures_sound _ _ _ _ _ _ hc).1
      · cases hlt
      · exact (findCaptures_sound _ _ _ _ _ _ hc).1
      · cases hlt
    simpa [closedPred, Bool.and_eq_true, decide_eq_true_eq] using hcp
  · decide

/-- Witness for C3 (amended): the block-query wiki-closed match on
`[[ text]]` spans `[0, 9)` and contains cursor 4 half-openly. -/
theorem C3_closed_selection_half_open_witness : (0 : Nat) ≤ 4 ∧ (4 : Nat) < 9 :=
  C3_closed_selection_half_open.1 _ _ _ _
    "[[ text]]".data 4 0 9 [(gGrep, 3, 7)] SyntaxType.Wiki
    (findLinkFor_def BlockLinkCmdQuery blockLinkParseable "[[ text]]".data 4 ▸
      (by decide :
        @MDLinkParser.findLinkFor BlockLinkCmdQuery blockLinkParseable "[[ text]]".data 4
          = Except.ok (some ((0, 9, [(gGrep, 3, 7)]),
              ParsedLinkType.Closed, SyntaxType.Wiki))))

/-- C4: the code contradicts its own comment ("Excludes [,],(,), except for
when it is escaped"): `link_char` = `(([^\[\]\(\)]|\\)[\[\]]?)` matches the
two-character input `a[` as a single unit even though the `[` is not preceded
by a backslash, and consequently on `[[a[b]]` with cursor 3 the parse
succeeds with the unescaped `[` absorbed into `file_query = "a[b"` instead of
the bracket terminating the match. -/
theorem C4_unescaped_bracket_absorbed :
    (runAt "a[".data link_char 0).map (fun r => r.1) = some 2
    ∧ parse_entity_query "[[a[b]]".data 3
      = .ok (some (⟨"a[b".data, none⟩, (0, 7), ⟨.Wiki none⟩)) := by decide

/-- C5 counterexample: the block-query grammar is also assembled for the
markdown syntax, so on the markdown-syntax line `[d]( foo)` with cursor 6,
`parse_block_query` DOES return a result (with Markdown syntax), contradicting
the claim that a markdown-syntax enclosing reference yields no result. -/
theorem C5_markdown_block_query_succeeds :
    parse_block_query "[d]( foo)".data 6
      = .ok (some (⟨"foo".data⟩, (0, 9), ⟨.Markdown "d".data⟩)) := by decide

/-- C5 as amended: a block query is recognized only when the reference
payload begins with a literal space before the search text — proven
generally: every successful `parse_block_query` reads its search text from a
position of the scanned line (the full line for a closed match, the line
truncated at the cursor for an unclosed one) immediately preceded by a
literal space character.  Concretely, the double-bracket form `[[ text]]` is
recognized, a double-bracket payload without the leading space yields no
result, and (contrary to the original claim) the markdown form
`[display]( text)` with the leading space is recognized as well, while
without the space it also yields no result. -/
theorem C5_block_query_needs_leading_space :
    (∀ (hay : List Char) (ch : Nat) (q : BlockLinkCmdQuery) (rs re : Nat)
        (info : QuerySyntaxInfo),
        parse_block_query hay ch = .ok (some (q, (rs, re), info)) →
        ∃ s gs ge, (s = hay ∨ s = hay.take ch) ∧ 1 ≤ gs ∧ s[gs - 1]? = some ' '
          ∧ q.grep_string = capStr s (gs, ge))
    ∧ parse_block_query "[[ text]]".data 4
      = .ok (some (⟨"text".data⟩, (0, 9), ⟨.Wiki none⟩))
    ∧ parse_block_query "[[text]]".data 3 = .ok none
    ∧ parse_block_query "[d]( foo)".data 6
      = .ok (some (⟨"foo".data⟩, (0, 9), ⟨.Markdown "d".data⟩))
    ∧ parse_block_query "[d](foo)".data 5 = .ok none := by
  refine ⟨?_, by decide, by decide, by decide, by decide⟩
  intro hay ch q rs re info h
  obtain ⟨⟨⟨st, en, c⟩, lt, syn⟩, hfl, ha⟩ :=
    parse_elim BlockLinkCmdQuery blockLinkParseable hay ch _ h
  obtain ⟨gs, ge, hcap, hq⟩ := assemble_block_sound hay ch st en c lt syn q (rs, re) info ha
  have hmem : (gGrep, gs, ge) ∈ c := capLookup_mem gGrep c gs ge hcap
  rw [findLinkFor_def] at hfl
  have hfs := findLink_sound _ _ _ _ hay ch st en c lt syn hfl
  rcases hfs with ⟨hc, hlt, -⟩ | ⟨hc, hlt, -⟩ | ⟨hc, hlt, -⟩ | ⟨hc, hlt, -⟩
  · subst hlt
    have hq2 : q.grep_string = capStr hay (gs, ge) := hq
    have hsp := runAt_guarded gGrep (fun c0 => c0 = ' ') hay _ st en c
      guarded_block_wiki_closed (findCaptures_sound _ _ _ _ _ _ hc).2
    obtain ⟨h1, c0, h2, h3⟩ := hsp gs ge hmem
    exact ⟨hay, gs, ge, Or.inl rfl, h1, h3 ▸ h2, hq2⟩
  · subst hlt
    have hq2 : q.grep_string = capStr (hay.take ch) (gs, ge) := hq
    have hsp := runAt_guarded gGrep (fun c0 => c0 = ' ') (hay.take ch) _ st en c
      guarded_block_wiki_unclosed (findCaptures_sound _ _ _ _ _ _ hc).2
    obtain ⟨h1, c0, h2, h3⟩ := hsp gs ge hmem
    exact ⟨hay.take ch, gs, ge, Or.inr rfl, h1, h3 ▸ h2, hq2⟩
  · subst hlt
    have hq2 : q.grep_string = capStr hay (gs, ge) := hq
    have hsp := runAt_guarded gGrep (fun c0 => c0 = ' ') hay _ st en c
      guarded_block_md_closed (findCaptures_sound _ _ _ _ _ _ hc).2
    obtain ⟨h1, c0, h2, h3⟩ := hsp gs ge hmem
    exact ⟨hay, gs, ge, Or.inl rfl, h1, h3 ▸ h2, hq2⟩
  · subst hlt
    have hq2 : q.grep_string = capStr (hay.take ch) (gs, ge) := hq
    have hsp := runAt_guarded gGrep (fun c0 => c0 = ' ') (hay.take ch) _ st en c
      guarded_block_md_unclosed (findCaptures_sound _ _ _ _ _ _ hc).2
    obtain ⟨h1, c0, h2, h3⟩ := hsp gs ge hmem
    exact ⟨hay.take ch, gs, ge, Or.inr rfl, h1, h3 ▸ h2, hq2⟩

/-- Witness for C5 (amended): on `[[ text]]` with cursor 4 the successful
block parse captures `text` from position 3, immediately preceded by the
literal space at position 2 of the line. -/
theorem C5_block_query_needs_leading_space_witness :
    ∃ s gs ge, (s = "[[ text]]".data ∨ s = ("[[ text]]".data).take 4) ∧ 1 ≤ gs
      ∧ s[gs - 1]? = some ' '
      ∧ (BlockLinkCmdQuery.mk "text".data).grep_string = capStr s (gs, ge) :=
  C5_block_query_needs_leading_space.1 "[[ text]]".data 4 ⟨"text".data⟩ 0 9
    ⟨.Wiki none⟩ (by decide)

/-- C6: entity-query extraction distinguishes blank sub-references from
absent ones: with the cursor inside, `[[file#]]` yields `Heading("")`,
`[[file#^]]` yields `Index("")`, and `[[file]]` yields `infile_query = None`;
the three results are pairwise distinct. -/
theorem C6_blank_subreference_distinct :
    parse_entity_query "[[file#]]".data 3
      = .ok (some (⟨"file".data, some (EntityInfileQuery.Heading [])⟩, (0, 9), ⟨.Wiki none⟩))
    ∧ parse_entity_query "[[file#^]]".data 3
      = .ok (some (⟨"file".data, some (EntityInfileQuery.Index [])⟩, (0, 10), ⟨.Wiki none⟩))
    ∧ parse_entity_query "[[file]]".data 3
      = .ok (some (⟨"file".data, none⟩, (0, 8), ⟨.Wiki none⟩))
    ∧ some (EntityInfileQuery.Heading []) ≠ some (EntityInfileQuery.Index [])
    ∧ some (EntityInfileQuery.Heading []) ≠ (none : Option EntityInfileQuery)
    ∧ some (EntityInfileQuery.Index []) ≠ (none : Option EntityInfileQuery) :=
  ⟨by decide, by decide, by decide, by decide, by decide, by decide⟩

/-- C7: for every successful parse whose syntax is Markdown, `display()` is
`Some` (the Markdown variant stores a mandatory, possibly empty string);
concretely `[](file#^index)` parsed as an entity query yields
`display() = Some("")`, while for Wiki syntax `[[file]]` (no `|` suffix)
yields `display() = None` and `[[file|]]` (suffix typed but empty) yields
`display() = Some("")`. -/
theorem C7_display_population :
    (∀ (T : Type) (instT : MDRegexParseable T) (hay : List Char) (ch : Nat)
        (q : T) (r : Nat × Nat) (info : QuerySyntaxInfo) (d : List Char),
        @MDLinkParser.parse T instT hay ch = .ok (some (q, r, info)) →
        info.typeInfo = QuerySyntaxTypeInfo.Markdown d → info.display = some d)
    ∧ parse_entity_query "[](file#^index)".data 5
      = .ok (some (⟨"file".data, some (EntityInfileQuery.Index "index".data)⟩,
          (0, 15), ⟨.Markdown []⟩))
    ∧ parse_entity_query "[[file]]".data 3
      = .ok (some (⟨"file".data, none⟩, (0, 8), ⟨.Wiki none⟩))
    ∧ parse_entity_query "[[file|]]".data 3
      = .ok (some (⟨"file".data, none⟩, (0, 9), ⟨.Wiki (some [])⟩)) := by
  refine ⟨?_, by decide, by decide, by decide⟩
  intro T instT hay ch q r info d _ htype
  simp [QuerySyntaxInfo.display, htype]

/-- Witness for C7: the markdown entity parse of `[](file#^index)` at cursor 5
carries Markdown syntax info with the empty display, and `display()` is
`Some("")`. -/
theorem C7_display_population_witness :
    (QuerySyntaxInfo.mk (QuerySyntaxTypeInfo.Markdown [])).display = some [] :=
  C7_display_population.1 NamedRefCmdQuery namedRefParseable "[](file#^index)".data 5
    ⟨"file".data, some (EntityInfileQuery.Index "index".data)⟩ (0, 15)
    ⟨.Markdown []⟩ [] (by decide) rfl

/-- C8: `grep_string()` replaces every `\[`/`\]` by the literal bracket and
`display_grep_string()` removes marker and bracket entirely; concretely
`[[ \[\[LATER\]\]]]` parsed as a block query captures the raw text
`\[\[LATER\]\]`, whose two views are `[[LATER]]` and `LATER`. -/
theorem C8_escaping_round_trip :
    parse_block_query "[[ \\[\\[LATER\\]\\]]]".data 5
      = .ok (some (⟨"\\[\\[LATER\\]\\]".data⟩, (0, 18), ⟨.Wiki none⟩))
    ∧ BlockLinkCmdQuery.grepString ⟨"\\[\\[LATER\\]\\]".data⟩ = "[[LATER]]".data
    ∧ BlockLinkCmdQuery.display_grep_string ⟨"\\[\\[LATER\\]\\]".data⟩ = "LATER".data :=
  ⟨by decide, by decide, by decide⟩

/-- C9: every returned result's `char_range` is the full matched span
`[match_start, match_end)` for a closed match and `[match_start, cursor)` for
an unclosed match — the unclosed end is exactly the cursor offset, regardless
of trailing text. -/
theorem C9_char_range_by_closure (T : Type) (instT : MDRegexParseable T)
    (hay : List Char) (ch : Nat) (q : T) (rs re : Nat) (info : QuerySyntaxInfo)
    (h : @MDLinkParser.parse T instT hay ch = .ok (some (q, (rs, re), info))) :
    ∃ st en c lt syn,
      @MDLinkParser.findLinkFor T instT hay ch = .ok (some ((st, en, c), lt, syn))
      ∧ rs = st
      ∧ (lt = ParsedLinkType.Closed → re = en)
      ∧ (lt = ParsedLinkType.Unclosed → re = ch) := by
  obtain ⟨⟨⟨st, en, c⟩, lt, syn⟩, hfl, ha⟩ := parse_elim T instT hay ch _ h
  obtain ⟨hrs, hre⟩ := assemble_sound T instT hay ch st en c lt syn q rs re info ha
  refine ⟨st, en, c, lt, syn, hfl, hrs, ?_, ?_⟩ <;> intro hlt <;> subst hlt <;> exact hre

/-- Witness for C9 at line `[[file]]`, cursor 3: the closed match `[0, 8)`
yields `char_range = (0, 8)`. -/
theorem C9_char_range_by_closure_witness :
    ∃ st en c lt syn,
      @MDLinkParser.findLinkFor NamedRefCmdQuery namedRefParseable "[[file]]".data 3
        = .ok (some ((st, en, c), lt, syn))
      ∧ 0 = st
      ∧ (lt = ParsedLinkType.Closed → 8 = en)
      ∧ (lt = ParsedLinkType.Unclosed → 8 = 3) :=
  C9_char_range_by_closure NamedRefCmdQuery namedRefParseable "[[file]]".data 3
    ⟨"file".data, none⟩ 0 8 ⟨.Wiki none⟩ (by decide)

/-- C10: `MDLinkParser::parse` is total (returns `Some` or `None`, never
panics) under the precondition that the cursor is at most the line length
(the embedding indexes by characters, where cursor positions up to the length
are exactly the valid slice boundaries); and for a cursor beyond the line
length with no closed match containing it, the unclosed steps slice
`hay[..character]` out of bounds and the call panics instead of returning
`None` — concretely on `[[a]]` with cursor 6. -/
theorem C10_totality_needs_cursor_in_bounds :
    (∀ (T : Type) (instT : MDRegexParseable T) (hay : List Char) (ch : Nat),
        ch ≤ hay.length → ∃ v, @MDLinkParser.parse T instT hay ch = .ok v)
    ∧ parse_entity_query "[[a]]".data 6 = .error PanicKind.sliceOutOfBounds := by
  constructor
  · intro T instT hay ch hle
    cases hf : @MDLinkParser.findLinkFor T instT hay ch with
    | error e =>
      have := findLink_error _ _ _ _ hay ch e (findLinkFor_def T instT hay ch ▸ hf)
      omega
    | ok o =>
      cases o with
      | none => exact ⟨none, by unfold MDLinkParser.parse; rw [hf]⟩
      | some m =>
        obtain ⟨⟨st, en, c⟩, lt, syn⟩ := m
        have hdisp : syn = SyntaxType.Markdown → (capLookup gDisplay c).isSome = true := by
          intro hsyn; subst hsyn
          have hfs := findLink_sound _ _ _ _ hay ch st en c lt _
            (findLinkFor_def T instT hay ch ▸ hf)
          rcases hfs with ⟨_, _, hs⟩ | ⟨_, _, hs⟩ | ⟨hc, _, _⟩ | ⟨hc, _, _⟩
          · cases hs
          · cases hs
          · exact runAt_md_display _ _ (Or.inl rfl) hay st en c
              (findCaptures_sound _ _ _ _ _ _ hc).2
          · exact runAt_md_display _ _ (Or.inr rfl) (hay.take ch) st en c
              (findCaptures_sound _ _ _ _ _ _ hc).2
        cases hv : @MDLinkParser.assemble T instT hay ch ((st, en, c), lt, syn) with
        | error e =>
          obtain ⟨hsyn, hnone⟩ := assemble_error T instT hay ch st en c lt syn e hv
          have := hdisp hsyn
          rw [hnone] at this
          cases this
        | ok v => exact ⟨v, by unfold MDLinkParser.parse; rw [hf]; exact hv⟩
  · decide

/-- Witness for C10: with the cursor in bounds (3 ≤ 8) the parse on
`[[file]]` returns an `ok` value. -/
theorem C10_totality_needs_cursor_in_bounds_witness :
    ∃ v, @MDLinkParser.parse NamedRefCmdQuery namedRefParseable "[[file]]".data 3 = .ok v :=
  C10_totality_needs_cursor_in_bounds.1 NamedRefCmdQuery namedRefParseable
    "[[file]]".data 3 (by decide)

end MarkdownOxide
